import Mathlib

/-!
Verification of the rodio WAV-decoding slice: the `WavDecoder` in
`src/decoder/wav.rs` and the `SamplesConverter` plus the fixed-point
conversion routines in `src/source/samples_converter.rs`.

The embedding is shallow:

* `f32` arithmetic is modelled over `ℚ`.  The only `f32` operations the
  conversion routines perform are (a) `i as f32` — an integer-to-float
  conversion that rounds to nearest, ties to even, with a 24-bit
  significand, (b) a division by an exact power of two, which is exact in
  binary floating point for every value arising here (no overflow, and the
  results stay far above the subnormal range), and (c) `clamp`, which only
  compares and selects.  Hence each routine computes exactly
  `clamp (roundF32 i / 2^(N-1))` as a rational number, where `roundF32`
  is round-to-nearest-even at 24 significant bits, modelled below by
  `roundIntF32`.
* Streams are in-memory: a byte list plus a cursor.  `hound`'s
  `WavReader` (an external crate, out of scope per the spec) is abstracted
  as a parameter: a pure function from the stream state to an optional
  parsed reader plus the stream position after the parse attempt.
* Raw sample words yielded by the reader are `Option ℚ`: `none` models a
  word that fails to parse (hound returns `Err`), `some v` a parsed value.
  For the integer formats the value is integer-valued and is recovered
  with `Rat.num`.
-/

/-- Fuel-driven floor of the base-2 logarithm: `log2fuel f n` is
`⌊log₂ n⌋` whenever `n < 2^f` (and `n ≥ 1`). -/
def log2fuel : ℕ → ℕ → ℕ
  | 0, _ => 0
  | f + 1, n => if n ≤ 1 then 0 else log2fuel f (n / 2) + 1

/-- Floor of the base-2 logarithm.  Fuel `n` always suffices since
`n < 2^n`. -/
def natLog2 (n : ℕ) : ℕ := log2fuel n n

/-- The body of round-to-nearest, ties-to-even: given the ulp `u`, the
quotient `q` and the remainder `r` of the value by `u`, pick the nearer of
`q*u` and `(q+1)*u`, with ties resolved to the even quotient. -/
def roundCore (u q r : ℕ) : ℕ :=
  if 2 * r < u then q * u
  else if u < 2 * r then (q + 1) * u
  else if q % 2 = 0 then q * u else (q + 1) * u

/-- Round a natural number to the nearest `f32` (24-bit significand,
round to nearest, ties to even).  For `m ≤ 2^24` this is the identity;
above that the ulp in the binade of `m` is `2^(⌊log₂ m⌋ - 23)`. -/
def roundNatF32 (m : ℕ) : ℕ :=
  roundCore (2 ^ (natLog2 m - 23)) (m / 2 ^ (natLog2 m - 23))
    (m % 2 ^ (natLog2 m - 23))

/-- Round an integer to the nearest `f32`; the conversion is symmetric
about zero.  Models Rust's `i as f32` for all `i32` inputs. -/
def roundIntF32 (i : ℤ) : ℤ :=
  if 0 ≤ i then (roundNatF32 i.toNat : ℤ) else -(roundNatF32 (-i).toNat : ℤ)

/-- Rust's `f32::clamp(self, min, max)` for non-NaN inputs:
`if self < min { min } else if self > max { max } else { self }`. -/
def ratClamp (x lo hi : ℚ) : ℚ :=
  if x < lo then lo else if hi < x then hi else x

/-- `src/source/samples_converter.rs`: `(i as f32 / 2u8.pow(7) as f32).clamp(-1., 1.)`. -/
def i8_to_f32 (i : ℤ) : ℚ := ratClamp ((roundIntF32 i : ℚ) / 2 ^ 7) (-1) 1

/-- `src/source/samples_converter.rs`: `(i as f32 / 2u16.pow(15) as f32).clamp(-1., 1.)`. -/
def i16_to_f32 (i : ℤ) : ℚ := ratClamp ((roundIntF32 i : ℚ) / 2 ^ 15) (-1) 1

/-- `src/source/samples_converter.rs`: `(i as f32 / 2u32.pow(23) as f32).clamp(-1., 1.)`. -/
def i24_to_f32 (i : ℤ) : ℚ := ratClamp ((roundIntF32 i : ℚ) / 2 ^ 23) (-1) 1

/-- `src/source/samples_converter.rs`: `(i as f32 / 2u32.pow(31) as f32).clamp(-1., 1.)`. -/
def i32_to_f32 (i : ℤ) : ℚ := ratClamp ((roundIntF32 i : ℚ) / 2 ^ 31) (-1) 1

/-! ### Properties of the base-2 logarithm -/

lemma log2fuel_spec : ∀ f n, 1 ≤ n → n < 2 ^ f →
    2 ^ log2fuel f n ≤ n ∧ n < 2 ^ (log2fuel f n + 1) := by
  intro f
  induction f with
  | zero => intro n h1 h2; simp at h2; omega
  | succ f ih =>
    intro n h1 h2
    by_cases hn : n ≤ 1
    · have : n = 1 := by omega
      subst this
      simp [log2fuel]
    · have h2' : n / 2 < 2 ^ f := by
        rw [pow_succ] at h2; omega
      have h1' : 1 ≤ n / 2 := by omega
      obtain ⟨ha, hb⟩ := ih (n / 2) h1' h2'
      have hstep : log2fuel (f + 1) n = log2fuel f (n / 2) + 1 := by
        simp [log2fuel, hn]
      rw [hstep]
      constructor
      · rw [pow_succ]
        omega
      · rw [pow_succ] at hb ⊢
        rw [pow_succ]
        omega

lemma natLog2_spec (n : ℕ) (h1 : 1 ≤ n) :
    2 ^ natLog2 n ≤ n ∧ n < 2 ^ (natLog2 n + 1) :=
  log2fuel_spec n n h1 (Nat.lt_two_pow n)

lemma natLog2_unique {n e : ℕ} (h1 : 2 ^ e ≤ n) (h2 : n < 2 ^ (e + 1)) :
    natLog2 n = e := by
  have hn : 1 ≤ n := le_trans (Nat.one_le_two_pow) h1
  obtain ⟨ha, hb⟩ := natLog2_spec n hn
  by_contra hne
  rcases Nat.lt_or_ge (natLog2 n) e with h | h
  · have : natLog2 n + 1 ≤ e := h
    have : (2 : ℕ) ^ (natLog2 n + 1) ≤ 2 ^ e :=
      Nat.pow_le_pow_right (by norm_num) this
    omega
  · have : e + 1 ≤ natLog2 n := by omega
    have : (2 : ℕ) ^ (e + 1) ≤ 2 ^ natLog2 n :=
      Nat.pow_le_pow_right (by norm_num) this
    omega

/-! ### Properties of rounding -/

lemma roundCore_lb (u q r : ℕ) : q * u ≤ roundCore u q r := by
  unfold roundCore
  split_ifs <;> first
  | exact le_rfl
  | exact Nat.mul_le_mul_right u (Nat.le_succ q)

lemma roundCore_ub (u q r : ℕ) : roundCore u q r ≤ (q + 1) * u := by
  unfold roundCore
  split_ifs <;> first
  | exact le_rfl
  | exact Nat.mul_le_mul_right u (Nat.le_succ q)

lemma roundCore_step_r (u q r : ℕ) :
    roundCore u q r ≤ roundCore u q (r + 1) := by
  by_cases h1 : 2 * r < u
  · calc roundCore u q r = q * u := by unfold roundCore; simp [h1]
    _ ≤ roundCore u q (r + 1) := roundCore_lb u q (r + 1)
  · have hup : roundCore u q (r + 1) = (q + 1) * u := by
      unfold roundCore
      have c1 : ¬ 2 * (r + 1) < u := by omega
      have c2 : u < 2 * (r + 1) := by omega
      simp [c1, c2]
    rw [hup]
    exact roundCore_ub u q r

lemma roundCore_zero_r (u q : ℕ) (hu : 0 < u) : roundCore u q 0 = q * u := by
  unfold roundCore
  simp [hu]

lemma roundNatF32_eq_self {m : ℕ} (h : m ≤ 2 ^ 24) : roundNatF32 m = m := by
  rcases Nat.eq_or_lt_of_le h with heq | hlt
  · subst heq
    decide
  · by_cases h0 : m = 0
    · subst h0; decide
    · have h1 : 1 ≤ m := by omega
      obtain ⟨ha, hb⟩ := natLog2_spec m h1
      have he : natLog2 m ≤ 23 := by
        by_contra hc
        have : 24 ≤ natLog2 m := by omega
        have : (2 : ℕ) ^ 24 ≤ 2 ^ natLog2 m :=
          Nat.pow_le_pow_right (by norm_num) this
        omega
      have hu : natLog2 m - 23 = 0 := by omega
      unfold roundNatF32
      rw [hu, pow_zero, Nat.div_one, Nat.mod_one,
        roundCore_zero_r _ _ (by norm_num), mul_one]

lemma roundNatF32_le_succ (m : ℕ) : roundNatF32 m ≤ roundNatF32 (m + 1) := by
  by_cases hsmall : m + 1 ≤ 2 ^ 24
  · rw [roundNatF32_eq_self (by omega), roundNatF32_eq_self hsmall]
    omega
  · -- m ≥ 2^24
    have hm : 2 ^ 24 ≤ m := by omega
    have h1 : 1 ≤ m := by
      have : (0 : ℕ) < 2 ^ 24 := by positivity
      omega
    obtain ⟨he1, he2⟩ := natLog2_spec m h1
    set e := natLog2 m with hedef
    have he24 : 24 ≤ e := by
      by_contra hc
      have : e + 1 ≤ 24 := by omega
      have : (2 : ℕ) ^ (e + 1) ≤ 2 ^ 24 :=
        Nat.pow_le_pow_right (by norm_num) this
      omega
    set d := e - 23 with hddef
    have hd1 : 1 ≤ d := by omega
    have hed : e = 23 + d := by omega
    have hP2 : (2 : ℕ) ≤ 2 ^ d := by
      calc (2 : ℕ) = 2 ^ 1 := by norm_num
      _ ≤ 2 ^ d := Nat.pow_le_pow_right (by norm_num) hd1
    by_cases hpow : m + 1 = 2 ^ (e + 1)
    · -- top of the binade: both sides round to 2^(e+1)
      have hlog' : natLog2 (m + 1) = e + 1 := by
        apply natLog2_unique (by rw [hpow])
        rw [hpow]
        exact Nat.pow_lt_pow_right (by norm_num) (by omega)
      -- right-hand side: m+1 is representable, rounds to itself
      have hd' : e + 1 - 23 = d + 1 := by omega
      have hsplit : m + 1 = 2 ^ 23 * 2 ^ (d + 1) := by
        rw [hpow, hed, ← pow_add]
        ring
      have hrhs : roundNatF32 (m + 1) = m + 1 := by
        unfold roundNatF32
        rw [hlog', hd', hsplit, Nat.mul_div_cancel _ (by positivity),
          Nat.mul_mod_left,
          roundCore_zero_r _ _ (by positivity)]
      -- left-hand side: m = 2^(e+1) - 1 rounds up to 2^(e+1)
      have hm_eq : m = (2 ^ 24 - 1) * 2 ^ d + (2 ^ d - 1) := by
        have hB : 2 ^ 24 * 2 ^ d = 2 ^ (e + 1) := by
          rw [← pow_add]; congr 1; omega
        have hsub : (2 ^ 24 - 1) * 2 ^ d = 2 ^ 24 * 2 ^ d - 2 ^ d := by
          rw [Nat.sub_mul, one_mul]
        have hPle : 2 ^ d ≤ 2 ^ 24 * 2 ^ d :=
          Nat.le_mul_of_pos_left _ (by positivity)
        omega
      have hde : e - 23 = d := by omega
      have hdiv : m / 2 ^ d = 2 ^ 24 - 1 := by
        rw [hm_eq, Nat.add_comm, Nat.add_mul_div_right _ _ (by positivity : 0 < 2 ^ d),
          Nat.div_eq_of_lt (by omega)]
        omega
      have hmod : m % 2 ^ d = 2 ^ d - 1 := by
        rw [hm_eq, Nat.add_comm, Nat.add_mul_mod_self_right,
          Nat.mod_eq_of_lt (by omega)]
      have hup : roundCore (2 ^ d) (2 ^ 24 - 1) (2 ^ d - 1) =
          (2 ^ 24 - 1 + 1) * 2 ^ d := by
        unfold roundCore
        have hnot : ¬ 2 * (2 ^ d - 1) < 2 ^ d := by omega
        rcases Nat.lt_or_ge 2 (2 ^ d) with hPgt | hPle
        · have hgt : 2 ^ d < 2 * (2 ^ d - 1) := by omega
          rw [if_neg hnot, if_pos hgt]
        · have hPeq : 2 ^ d = 2 := by omega
          rw [hPeq]
          decide
      have hlhs : roundNatF32 m = 2 ^ (e + 1) := by
        unfold roundNatF32
        rw [← hedef, hde, hdiv, hmod, hup,
          Nat.sub_add_cancel Nat.one_le_two_pow, ← pow_add]
        congr 1
        omega
      rw [hlhs, hrhs, hpow]
    · -- same binade: the ulp is unchanged
      have hlog' : natLog2 (m + 1) = e := by
        apply natLog2_unique (by omega)
        have : m + 1 ≤ 2 ^ (e + 1) := by omega
        omega
      set P := 2 ^ d with hPdef
      have hde : e - 23 = d := by omega
      have hqr := Nat.div_add_mod m P
      set q := m / P with hq
      set r := m % P with hr
      have hrlt : r < P := Nat.mod_lt _ (by positivity)
      by_cases hcross : r + 1 = P
      · -- m+1 is an exact multiple of the ulp
        have hdist : P * (q + 1) = P * q + P := by ring
        have hm1 : m + 1 = P * (q + 1) := by omega
        have hdiv' : (m + 1) / P = q + 1 := by
          rw [hm1, Nat.mul_div_cancel_left _ (by positivity)]
        have hmod' : (m + 1) % P = 0 := by
          rw [hm1, Nat.mul_mod_right]
        have hrhs : roundNatF32 (m + 1) = (q + 1) * P := by
          unfold roundNatF32
          rw [hlog', hde, ← hPdef, hdiv', hmod',
            roundCore_zero_r _ _ (by positivity)]
        have hlhs : roundNatF32 m = roundCore P q r := by
          unfold roundNatF32
          rw [← hedef, hde, ← hPdef, ← hq, ← hr]
        rw [hlhs, hrhs]
        exact roundCore_ub P q r
      · -- m+1 stays in the same ulp interval
        have hcomm : q * P = P * q := mul_comm q P
        have hm1 : m + 1 = (r + 1) + q * P := by omega
        have hdiv' : (m + 1) / P = q := by
          rw [hm1, Nat.add_mul_div_right _ _ (by positivity : 0 < P),
            Nat.div_eq_of_lt (by omega)]
          omega
        have hmod' : (m + 1) % P = r + 1 := by
          rw [hm1, Nat.add_mul_mod_self_right, Nat.mod_eq_of_lt (by omega)]
        have hlhs : roundNatF32 m = roundCore P q r := by
          unfold roundNatF32
          rw [← hedef, hde, ← hPdef, ← hq, ← hr]
        have hrhs : roundNatF32 (m + 1) = roundCore P q (r + 1) := by
          unfold roundNatF32
          rw [hlog', hde, ← hPdef, hdiv', hmod']
        rw [hlhs, hrhs]
        exact roundCore_step_r P q r

lemma roundNatF32_mono : Monotone roundNatF32 :=
  monotone_nat_of_le_succ roundNatF32_le_succ

lemma roundIntF32_of_abs_le {i : ℤ} (hlo : -(2 ^ 24) ≤ i) (hhi : i ≤ 2 ^ 24) :
    roundIntF32 i = i := by
  unfold roundIntF32
  rcases le_or_lt 0 i with hi | hi
  · rw [if_pos hi, roundNatF32_eq_self (by omega), Int.toNat_of_nonneg hi]
  · rw [if_neg (by omega)]
    have h1 : (-i).toNat ≤ 2 ^ 24 := by omega
    rw [roundNatF32_eq_self h1, Int.toNat_of_nonneg (by omega)]
    omega

lemma roundIntF32_mono {i j : ℤ} (h : i ≤ j) : roundIntF32 i ≤ roundIntF32 j := by
  unfold roundIntF32
  rcases le_or_lt 0 i with hi | hi <;> rcases le_or_lt 0 j with hj | hj
  · simp only [if_pos hi, if_pos hj]
    exact_mod_cast roundNatF32_mono (by omega : i.toNat ≤ j.toNat)
  · omega
  · simp only [if_neg (by omega : ¬ 0 ≤ i), if_pos hj]
    have : (0 : ℤ) ≤ (roundNatF32 j.toNat : ℤ) := by positivity
    have : (0 : ℤ) ≤ (roundNatF32 (-i).toNat : ℤ) := by positivity
    omega
  · simp only [if_neg (by omega : ¬ 0 ≤ i), if_neg (by omega : ¬ 0 ≤ j)]
    have hle : (-j).toNat ≤ (-i).toNat := by omega
    have := roundNatF32_mono hle
    omega

/-! ### Properties of clamping -/

lemma ratClamp_mono {lo hi x y : ℚ} (hlh : lo ≤ hi) (h : x ≤ y) :
    ratClamp x lo hi ≤ ratClamp y lo hi := by
  unfold ratClamp
  split_ifs <;> linarith

lemma ratClamp_bounds (x lo hi : ℚ) (hlh : lo ≤ hi) :
    lo ≤ ratClamp x lo hi ∧ ratClamp x lo hi ≤ hi := by
  unfold ratClamp
  split_ifs <;> constructor <;> linarith

lemma ratClamp_eq_max_min (x : ℚ) :
    ratClamp x (-1) 1 = max (-1) (min 1 x) := by
  unfold ratClamp
  rcases lt_trichotomy x (-1) with h | h | h
  · rw [if_pos h, min_eq_right (by linarith), max_eq_left (by linarith)]
  · subst h; norm_num
  · rw [if_neg (by linarith)]
    rcases le_or_lt x 1 with h2 | h2
    · rw [if_neg (by linarith), min_eq_right h2, max_eq_right (by linarith)]
    · rw [if_pos h2, min_eq_left (by linarith), max_eq_right (by linarith)]

/-! ### The byte stream and the format sniff (`src/decoder/wav.rs`) -/

/-- An owned, seekable, in-memory byte source: the `R: Read + Seek`
stream handle.  `pos` is the current stream position. -/
structure ByteStream where
  data : List ℕ
  pos : ℕ
deriving DecidableEq

/-- `Read::read`: the next `n` bytes visible from the current position. -/
def ByteStream.read (s : ByteStream) (n : ℕ) : List ℕ :=
  (s.data.drop s.pos).take n

/-- `hound::SampleFormat`. -/
inductive SampleFormat
  | Float
  | Int
deriving DecidableEq

/-- The Rust `Debug` rendering of `SampleFormat`, as used by the panic
message `format!("Unimplemented wav spec: {:?}, {}", ...)`. -/
def SampleFormat.debugStr : SampleFormat → String
  | .Float => "Float"
  | .Int => "Int"

/-- `hound::WavSpec`, captured once at construction. -/
structure WavSpecM where
  channels : ℕ
  sample_rate : ℕ
  bits_per_sample : ℕ
  sample_format : SampleFormat
deriving DecidableEq

/-- A parsed `hound::WavReader`: the header specification, the total
sample count `len` announced by the header (`WavReader::len`, constant),
and the remaining raw sample words.  A word is `none` when reading it
fails to parse (hound yields `Err`), `some v` when it parses to `v`; for
the integer formats `v` is integer-valued. -/
structure WavReaderM where
  spec : WavSpecM
  len : ℕ
  samples : List (Option ℚ)
deriving DecidableEq

/-- The external WAV container parser (`hound::WavReader::new`), out of
scope per the spec and abstracted as a pure function of the stream state:
it returns the parsed reader (or `none` on a malformed header) together
with the stream position after the parse attempt. -/
def WavParser : Type := ByteStream → Option WavReaderM × ℕ

/-- `is_wave` (`src/decoder/wav.rs`): record the current position,
attempt to parse a header, and seek back to the recorded position on both
the success and the failure path, returning whether parsing succeeded. -/
def is_wave (parse : WavParser) (s : ByteStream) : Bool × ByteStream :=
  let stream_pos := s.pos
  ((parse s).1.isSome, ⟨s.data, stream_pos⟩)

/-! ### The sample iterator (`SamplesIterator` in `src/decoder/wav.rs`) -/

/-- `SamplesIterator`: the reader plus the count of samples already
produced (`samples_read: u32`). -/
structure SamplesIterator where
  reader : WavReaderM
  samples_read : ℕ
deriving DecidableEq

/-- Outcome of one pull on the iterator: a sample plus the successor
state, end of stream, or a panic (Rust `panic!`) with its message. -/
inductive PullResult
  | value (v : ℚ) (it : SamplesIterator)
  | done
  | panicked (msg : String)
deriving DecidableEq

/-- The successor state after one successful pull: the read word is
consumed and `samples_read += 1`. -/
def SamplesIterator.advance (it : SamplesIterator) (rest : List (Option ℚ)) :
    SamplesIterator :=
  ⟨⟨it.reader.spec, it.reader.len, rest⟩, it.samples_read + 1⟩

/-- `<SamplesIterator as Iterator>::next`: dispatch on the captured
`(sample_format, bits_per_sample)`; the five supported arms each read one
raw word, substitute `0` for an unparseable word (`value.unwrap_or(0)`),
convert it and bump the cursor; any other combination panics with
`"Unimplemented wav spec: {:?}, {}"`.  For the integer formats the parsed
word is integer-valued and `Rat.num` recovers the integer. -/
def SamplesIterator.next (it : SamplesIterator) : PullResult :=
  if it.reader.spec.sample_format = SampleFormat.Float ∧
      it.reader.spec.bits_per_sample = 32 then
    match it.reader.samples with
    | [] => PullResult.done
    | v :: rest => PullResult.value (v.getD 0) (it.advance rest)
  else if it.reader.spec.sample_format = SampleFormat.Int ∧
      it.reader.spec.bits_per_sample = 32 then
    match it.reader.samples with
    | [] => PullResult.done
    | v :: rest => PullResult.value (i32_to_f32 (v.getD 0).num) (it.advance rest)
  else if it.reader.spec.sample_format = SampleFormat.Int ∧
      it.reader.spec.bits_per_sample = 16 then
    match it.reader.samples with
    | [] => PullResult.done
    | v :: rest => PullResult.value (i16_to_f32 (v.getD 0).num) (it.advance rest)
  else if it.reader.spec.sample_format = SampleFormat.Int ∧
      it.reader.spec.bits_per_sample = 24 then
    match it.reader.samples with
    | [] => PullResult.done
    | v :: rest => PullResult.value (i24_to_f32 (v.getD 0).num) (it.advance rest)
  else if it.reader.spec.sample_format = SampleFormat.Int ∧
      it.reader.spec.bits_per_sample = 8 then
    match it.reader.samples with
    | [] => PullResult.done
    | v :: rest => PullResult.value (i8_to_f32 (v.getD 0).num) (it.advance rest)
  else
    PullResult.panicked ("Unimplemented wav spec: " ++
      it.reader.spec.sample_format.debugStr ++ ", " ++
      toString it.reader.spec.bits_per_sample)

/-- `<SamplesIterator as Iterator>::size_hint`:
`(len - samples_read, Some(len - samples_read))`. -/
def SamplesIterator.size_hint (it : SamplesIterator) : ℕ × Option ℕ :=
  (it.reader.len - it.samples_read, some (it.reader.len - it.samples_read))

/-- The `(encoding, bit depth)` combinations enumerated by the match in
`SamplesIterator::next`. -/
def supportedSpec (fmt : SampleFormat) (bits : ℕ) : Prop :=
  (fmt = SampleFormat.Float ∧ bits = 32) ∨
    (fmt = SampleFormat.Int ∧ (bits = 32 ∨ bits = 16 ∨ bits = 24 ∨ bits = 8))

instance (fmt : SampleFormat) (bits : ℕ) : Decidable (supportedSpec fmt bits) := by
  unfold supportedSpec
  infer_instance

lemma next_value_struct {it it' : SamplesIterator} {v : ℚ}
    (h : it.next = PullResult.value v it') :
    ∃ w rest, it.reader.samples = w :: rest ∧ it' = it.advance rest := by
  unfold SamplesIterator.next at h
  split_ifs at h
  all_goals first
  | simp at h
  | · rcases hs : it.reader.samples with _ | ⟨w, rest⟩ <;> rw [hs] at h
      · simp at h
      · simp only [PullResult.value.injEq] at h
        exact ⟨w, rest, rfl, h.2.symm⟩

lemma next_value_length {it it' : SamplesIterator} {v : ℚ}
    (h : it.next = PullResult.value v it') :
    it'.reader.samples.length + 1 = it.reader.samples.length := by
  obtain ⟨w, rest, hs, hit⟩ := next_value_struct h
  rw [hs, hit]
  simp [SamplesIterator.advance]

/-- Pull the iterator to exhaustion, collecting every produced sample:
the decoded sample sequence. -/
def SamplesIterator.collect (it : SamplesIterator) : List ℚ :=
  match h : it.next with
  | PullResult.value v it' => v :: it'.collect
  | PullResult.done => []
  | PullResult.panicked _ => []
termination_by it.reader.samples.length
decreasing_by
  have := next_value_length h
  omega

/-! ### The decoder (`WavDecoder` in `src/decoder/wav.rs`) -/

/-- `make_sample_format_str`: `"FLOAT{bits}"` or `"PCM{bits}"`. -/
def make_sample_format_str (fmt : SampleFormat) (bits : ℕ) : String :=
  match fmt with
  | SampleFormat.Float => "FLOAT" ++ toString bits
  | SampleFormat.Int => "PCM" ++ toString bits

/-- `WavDecoder`: the sample iterator plus the specification fields
captured once at construction. -/
structure WavDecoderM where
  reader : SamplesIterator
  sample_rate : ℕ
  channels : ℕ
  sample_format_str : String
deriving DecidableEq

/-- `WavDecoder::new`: sniff with `is_wave`; on failure return the
stream handle (restored by the sniff) as `Err`; otherwise parse the
header again from the restored stream and capture the specification.
The final arm models the `.unwrap()` panic; it is unreachable because
`is_wave` hands back the stream unchanged, so the second parse sees the
same state as the first. -/
def WavDecoder.new (parse : WavParser) (data : ByteStream) :
    Except ByteStream WavDecoderM :=
  let r := is_wave parse data
  if r.1 = false then Except.error r.2
  else
    match (parse r.2).1 with
    | some reader0 =>
        Except.ok
          { reader := ⟨reader0, 0⟩
            sample_rate := reader0.spec.sample_rate
            channels := reader0.spec.channels
            sample_format_str :=
              make_sample_format_str reader0.spec.sample_format
                reader0.spec.bits_per_sample }
    | none => Except.error r.2

/-- Outcome of one pull on the decoder (`<WavDecoder as Iterator>::next`
forwards to the inner iterator). -/
inductive DecoderPull
  | value (v : ℚ) (d : WavDecoderM)
  | done
  | panicked (msg : String)
deriving DecidableEq

/-- `<WavDecoder as Iterator>::next`: `self.reader.next()`. -/
def WavDecoderM.next (d : WavDecoderM) : DecoderPull :=
  match d.reader.next with
  | PullResult.value v it => DecoderPull.value v { d with reader := it }
  | PullResult.done => DecoderPull.done
  | PullResult.panicked m => DecoderPull.panicked m

/-- `<WavDecoder as Iterator>::size_hint`: `self.reader.size_hint()`. -/
def WavDecoderM.size_hint (d : WavDecoderM) : ℕ × Option ℕ :=
  d.reader.size_hint

/-- `ExactSizeIterator::len` (default implementation): the lower bound of
`size_hint`, which equals the upper bound. -/
def WavDecoderM.len (d : WavDecoderM) : ℕ :=
  d.size_hint.1

/-- `<WavDecoder as Source>::channels`. -/
def WavDecoderM.channelsFn (d : WavDecoderM) : ℕ := d.channels

/-- `<WavDecoder as Source>::sample_rate`. -/
def WavDecoderM.sampleRateFn (d : WavDecoderM) : ℕ := d.sample_rate

/-- `<WavDecoder as Source>::current_frame_len`: `None`. -/
def WavDecoderM.current_frame_len (_ : WavDecoderM) : Option ℕ := none

/-- `<WavDecoder as Source>::total_duration`, in milliseconds:
`self.len() as u64 * 1000 / (channels as u64 * sample_rate as u64)`.
Rust's `u64` division panics when the divisor is zero; the panic is
modelled as `none`. -/
def WavDecoderM.total_duration (d : WavDecoderM) : Option ℕ :=
  if d.channels * d.sample_rate = 0 then none
  else some (d.len * 1000 / (d.channels * d.sample_rate))

/-- Pull `k` samples from the decoder, keeping the state; a pull that
does not produce a sample leaves the state unchanged. -/
def pullK : ℕ → WavDecoderM → WavDecoderM
  | 0, d => d
  | k + 1, d =>
    match d.next with
    | DecoderPull.value _ d' => pullK k d'
    | _ => d

/-! ### The sample converter (`src/source/samples_converter.rs`) -/

/-- A concrete model of an inner `Source`: the pending items determine
the pull sequence, and the metadata methods are fields (an arbitrary
inner implementation may answer anything, so they are unconstrained). -/
structure SourceM (α : Type) where
  items : List α
  channels : ℕ
  sample_rate : ℕ
  current_frame_len : Option ℕ
  total_duration : Option ℕ
  sample_format_str : String
  size_hint : ℕ × Option ℕ

/-- `Iterator::next` of the inner source. -/
def SourceM.next {α : Type} (s : SourceM α) : Option (α × SourceM α) :=
  match s.items with
  | [] => none
  | x :: rest => some (x, { s with items := rest })

/-- `SamplesConverter<I, D>`: the inner source plus the conversion
injected by the target sample type `D` (`CpalSample::from`). -/
structure SamplesConverter (α β : Type) where
  inner : SourceM α
  conv : α → β

/-- `<SamplesConverter as Iterator>::next`:
`self.inner.next().map(|s| CpalSample::from(&s))`. -/
def SamplesConverter.next {α β : Type} (c : SamplesConverter α β) :
    Option (β × SamplesConverter α β) :=
  match c.inner.next with
  | none => none
  | some (v, s') => some (c.conv v, ⟨s', c.conv⟩)

/-- `<SamplesConverter as Iterator>::size_hint`: `self.inner.size_hint()`. -/
def SamplesConverter.size_hint {α β : Type} (c : SamplesConverter α β) :
    ℕ × Option ℕ :=
  c.inner.size_hint

/-- `<SamplesConverter as Source>::current_frame_len`. -/
def SamplesConverter.current_frame_len {α β : Type} (c : SamplesConverter α β) :
    Option ℕ :=
  c.inner.current_frame_len

/-- `<SamplesConverter as Source>::channels`. -/
def SamplesConverter.channels {α β : Type} (c : SamplesConverter α β) : ℕ :=
  c.inner.channels

/-- `<SamplesConverter as Source>::sample_rate`. -/
def SamplesConverter.sample_rate {α β : Type} (c : SamplesConverter α β) : ℕ :=
  c.inner.sample_rate

/-- `<SamplesConverter as Source>::total_duration`. -/
def SamplesConverter.total_duration {α β : Type} (c : SamplesConverter α β) :
    Option ℕ :=
  c.inner.total_duration

/-- `<SamplesConverter as Source>::sample_format_str`. -/
def SamplesConverter.sample_format_str {α β : Type} (c : SamplesConverter α β) :
    String :=
  c.inner.sample_format_str

/-- Pull the inner source to exhaustion. -/
def SourceM.collect {α : Type} (s : SourceM α) : List α :=
  match h : s.next with
  | some (v, s') => v :: s'.collect
  | none => []
termination_by s.items.length
decreasing_by
  unfold SourceM.next at h
  rcases hs : s.items with _ | ⟨x, rest⟩ <;> rw [hs] at h
  · simp at h
  · simp only [Option.some.injEq, Prod.mk.injEq] at h
    rw [← h.2]
    simp [hs]

/-- Pull the converter to exhaustion. -/
def SamplesConverter.collect {α β : Type} (c : SamplesConverter α β) : List β :=
  match h : c.next with
  | some (v, c') => v :: c'.collect
  | none => []
termination_by c.inner.items.length
decreasing_by
  unfold SamplesConverter.next SourceM.next at h
  rcases hs : c.inner.items with _ | ⟨x, rest⟩ <;> rw [hs] at h
  · simp at h
  · simp only [Option.some.injEq, Prod.mk.injEq] at h
    rw [← h.2]
    simp [hs]

/-! ### Support lemmas for the conversion routines -/

lemma ratClamp_of_hi_le {x lo hi : ℚ} (hlh : lo ≤ hi) (h : hi ≤ x) :
    ratClamp x lo hi = hi := by
  unfold ratClamp
  split_ifs <;> linarith

lemma ratClamp_of_le_lo {x lo hi : ℚ} (hlh : lo ≤ hi) (h : x ≤ lo) :
    ratClamp x lo hi = lo := by
  unfold ratClamp
  split_ifs with h1 h2
  · rfl
  · linarith
  · linarith

lemma fixed_conv_eq_of_exact (k : ℕ) {i : ℤ} (h1 : -(2 ^ 24) ≤ i)
    (h2 : i ≤ 2 ^ 24) :
    ratClamp ((roundIntF32 i : ℚ) / 2 ^ k) (-1) 1 =
      max (-1) (min 1 ((i : ℚ) / 2 ^ k)) := by
  rw [roundIntF32_of_abs_le h1 h2, ratClamp_eq_max_min]

lemma fixed_mono {c : ℚ} (hc : 0 < c) {i j : ℤ} (h : i ≤ j) :
    ratClamp ((roundIntF32 i : ℚ) / c) (-1) 1 ≤
      ratClamp ((roundIntF32 j : ℚ) / c) (-1) 1 := by
  apply ratClamp_mono (by norm_num)
  gcongr
  exact_mod_cast roundIntF32_mono h

lemma roundIntF32_ge_of_ge {i : ℤ} (b : ℤ) (hb1 : -(2 ^ 24) ≤ b)
    (hb2 : b ≤ 2 ^ 24) (h : b ≤ i) : b ≤ roundIntF32 i := by
  calc b = roundIntF32 b := (roundIntF32_of_abs_le hb1 hb2).symm
  _ ≤ roundIntF32 i := roundIntF32_mono h

lemma roundIntF32_le_of_le {i : ℤ} (b : ℤ) (hb1 : -(2 ^ 24) ≤ b)
    (hb2 : b ≤ 2 ^ 24) (h : i ≤ b) : roundIntF32 i ≤ b := by
  calc roundIntF32 i ≤ roundIntF32 b := roundIntF32_mono h
  _ = b := roundIntF32_of_abs_le hb1 hb2

lemma i24_saturate_pos {i : ℤ} (h : 2 ^ 23 ≤ i) :
    i24_to_f32 i = max (-1) (min 1 ((i : ℚ) / 2 ^ 23)) := by
  have hr : (2 ^ 23 : ℤ) ≤ roundIntF32 i :=
    roundIntF32_ge_of_ge _ (by norm_num) (by norm_num) h
  have hx : (1 : ℚ) ≤ (roundIntF32 i : ℚ) / 2 ^ 23 := by
    rw [one_le_div (by positivity)]
    exact_mod_cast hr
  have hy : (1 : ℚ) ≤ (i : ℚ) / 2 ^ 23 := by
    rw [one_le_div (by positivity)]
    exact_mod_cast h
  unfold i24_to_f32
  rw [ratClamp_of_hi_le (by norm_num) hx, min_eq_left hy,
    max_eq_right (by norm_num)]

lemma i24_saturate_neg {i : ℤ} (h : i ≤ -(2 ^ 23)) :
    i24_to_f32 i = max (-1) (min 1 ((i : ℚ) / 2 ^ 23)) := by
  have hr : roundIntF32 i ≤ -(2 ^ 23) :=
    roundIntF32_le_of_le _ (by norm_num) (by norm_num) h
  have hx : (roundIntF32 i : ℚ) / 2 ^ 23 ≤ -1 := by
    rw [div_le_iff₀ (by positivity)]
    have : (roundIntF32 i : ℚ) ≤ -(2 ^ 23 : ℚ) := by exact_mod_cast hr
    linarith
  have hy : ((i : ℚ)) / 2 ^ 23 ≤ -1 := by
    rw [div_le_iff₀ (by positivity)]
    have : (i : ℚ) ≤ -(2 ^ 23) := by exact_mod_cast h
    linarith
  unfold i24_to_f32
  rw [ratClamp_of_le_lo (by norm_num) hx, min_eq_right (by linarith),
    max_eq_left (by linarith)]

/-! ### Claim C1 -/

/-- C1 counterexample: the claim fails for the 32-bit conversion at
`i = 2^31 - 1 = 2147483647`.  `i as f32` rounds `2^31 - 1` up to `2^31`
(the nearest `f32`), so the output is exactly `1.0`, not
`(2^31 - 1) / 2^31` clamped. -/
theorem scaling_correctness_cex :
    i32_to_f32 2147483647 ≠ max (-1) (min 1 ((2147483647 : ℚ) / 2 ^ 31)) ∧
      i32_to_f32 2147483647 = 1 := by
  have h : roundIntF32 2147483647 = 2147483648 := by decide
  unfold i32_to_f32 ratClamp
  rw [h]
  constructor
  · norm_num [max_def, min_def]
  · norm_num

/-- C1 (amended): each conversion equals `i / 2^(N-1)` clamped to
`[-1, 1]` whenever the input is exactly representable in `f32`
(`|i| ≤ 2^24`) — in particular on the full 8-bit and 16-bit domains and,
thanks to saturation, on the full `i32` domain of the 24-bit conversion;
for the 32-bit conversion with `|i| > 2^24` the output is the `f32`
rounding of `i` divided by `2^31`, clamped, which can differ by one
rounding step.  The 16-bit inputs `-32768`, `0`, `32767` map exactly to
`-1`, `0`, `32767/32768`, and no output of any conversion lies outside
`[-1, 1]`. -/
theorem scaling_correctness :
    (∀ i : ℤ, -(2 ^ 7) ≤ i → i ≤ 2 ^ 7 - 1 →
      i8_to_f32 i = max (-1) (min 1 ((i : ℚ) / 2 ^ 7))) ∧
    (∀ i : ℤ, -(2 ^ 15) ≤ i → i ≤ 2 ^ 15 - 1 →
      i16_to_f32 i = max (-1) (min 1 ((i : ℚ) / 2 ^ 15))) ∧
    (∀ i : ℤ, -(2 ^ 31) ≤ i → i ≤ 2 ^ 31 - 1 →
      i24_to_f32 i = max (-1) (min 1 ((i : ℚ) / 2 ^ 23))) ∧
    (∀ i : ℤ, -(2 ^ 24) ≤ i → i ≤ 2 ^ 24 →
      i32_to_f32 i = max (-1) (min 1 ((i : ℚ) / 2 ^ 31))) ∧
    i16_to_f32 (-32768) = -1 ∧ i16_to_f32 0 = 0 ∧
    i16_to_f32 32767 = 32767 / 32768 ∧
    (∀ i : ℤ, -1 ≤ i8_to_f32 i ∧ i8_to_f32 i ≤ 1) ∧
    (∀ i : ℤ, -1 ≤ i16_to_f32 i ∧ i16_to_f32 i ≤ 1) ∧
    (∀ i : ℤ, -1 ≤ i24_to_f32 i ∧ i24_to_f32 i ≤ 1) ∧
    (∀ i : ℤ, -1 ≤ i32_to_f32 i ∧ i32_to_f32 i ≤ 1) := by
  refine ⟨?_, ?_, ?_, ?_, ?_, ?_, ?_, ?_, ?_, ?_, ?_⟩
  · intro i h1 h2
    exact fixed_conv_eq_of_exact 7 (by omega) (by omega)
  · intro i h1 h2
    exact fixed_conv_eq_of_exact 15 (by omega) (by omega)
  · intro i h1 h2
    rcases le_or_lt i (-(2 ^ 23)) with hneg | hmid
    · exact i24_saturate_neg hneg
    · rcases le_or_lt (2 ^ 23) i with hpos | hmid2
      · exact i24_saturate_pos hpos
      · exact fixed_conv_eq_of_exact 23 (by omega) (by omega)
  · intro i h1 h2
    exact fixed_conv_eq_of_exact 31 h1 h2
  · have h : roundIntF32 (-32768) = -32768 := by decide
    unfold i16_to_f32 ratClamp
    rw [h]
    norm_num
  · have h : roundIntF32 0 = 0 := by decide
    unfold i16_to_f32 ratClamp
    rw [h]
    norm_num
  · have h : roundIntF32 32767 = 32767 := by decide
    unfold i16_to_f32 ratClamp
    rw [h]
    norm_num
  · intro i
    exact ratClamp_bounds _ _ _ (by norm_num)
  · intro i
    exact ratClamp_bounds _ _ _ (by norm_num)
  · intro i
    exact ratClamp_bounds _ _ _ (by norm_num)
  · intro i
    exact ratClamp_bounds _ _ _ (by norm_num)

/-- C1 witness: the amended theorem applied at the concrete 16-bit input
`i = 5`. -/
theorem scaling_correctness_witness :
    (-(2 ^ 15) : ℤ) ≤ 5 ∧ (5 : ℤ) ≤ 2 ^ 15 - 1 ∧
      i16_to_f32 5 = max (-1) (min 1 ((5 : ℚ) / 2 ^ 15)) :=
  ⟨by decide, by decide, scaling_correctness.2.1 5 (by decide) (by decide)⟩

/-! ### Claim C10 -/

/-- C10: each of the four conversion routines is monotone non-decreasing
over its entire input domain (stated for all integers, which covers the
respective `i8`/`i16`/`i32` domains): rounding to `f32`, dividing by a
positive power of two, and clamping all preserve order. -/
theorem conversions_monotone :
    (∀ i j : ℤ, i ≤ j → i8_to_f32 i ≤ i8_to_f32 j) ∧
    (∀ i j : ℤ, i ≤ j → i16_to_f32 i ≤ i16_to_f32 j) ∧
    (∀ i j : ℤ, i ≤ j → i24_to_f32 i ≤ i24_to_f32 j) ∧
    (∀ i j : ℤ, i ≤ j → i32_to_f32 i ≤ i32_to_f32 j) := by
  refine ⟨?_, ?_, ?_, ?_⟩ <;> intro i j h
  · exact fixed_mono (by norm_num) h
  · exact fixed_mono (by norm_num) h
  · exact fixed_mono (by norm_num) h
  · exact fixed_mono (by norm_num) h

/-- C10 witness: monotonicity applied at the concrete pair `(-5, 7)`. -/
theorem conversions_monotone_witness :
    (-5 : ℤ) ≤ 7 ∧ i8_to_f32 (-5) ≤ i8_to_f32 7 :=
  ⟨by decide, conversions_monotone.1 (-5) 7 (by decide)⟩

/-! ### Claim C2 -/

/-- C2: sniffing twice yields the same boolean both times, and after each
call the stream position (and contents) equal what they were before
either call.  Holds for every parser behaviour because `is_wave` seeks
back to the recorded position on both paths. -/
theorem is_wave_idempotent (parse : WavParser) (s : ByteStream) :
    (is_wave parse s).1 = (is_wave parse (is_wave parse s).2).1 ∧
    (is_wave parse s).2.pos = s.pos ∧
    (is_wave parse (is_wave parse s).2).2.pos = s.pos ∧
    (is_wave parse s).2.data = s.data ∧
    (is_wave parse (is_wave parse s).2).2.data = s.data :=
  ⟨rfl, rfl, rfl, rfl, rfl⟩

/-! ### Claim C3 -/

/-- C3: when the sniff fails, `WavDecoder::new` fails and hands the
original stream handle back unchanged (same contents, same position), so
any subsequent read from the returned handle yields the same bytes a read
before the attempt would have. -/
theorem failed_sniff_nondestructive (parse : WavParser) (s : ByteStream)
    (h : (parse s).1 = none) :
    WavDecoder.new parse s = Except.error s ∧
    ∀ b : ByteStream, WavDecoder.new parse s = Except.error b →
      ∀ n, b.read n = s.read n := by
  have hmain : WavDecoder.new parse s = Except.error s := by
    unfold WavDecoder.new is_wave
    simp [h]
  refine ⟨hmain, ?_⟩
  intro b hb n
  rw [hmain] at hb
  injection hb with hsb
  rw [hsb]

/-- A parser that rejects every stream. -/
def sniffFailParse : WavParser := fun _ => (none, 0)

/-- A concrete three-byte non-WAV stream. -/
def sniffFailStream : ByteStream := ⟨[82, 73, 70], 0⟩

/-- C3 witness: the theorem applied to a concrete failing parse. -/
theorem failed_sniff_nondestructive_witness :
    (sniffFailParse sniffFailStream).1 = none ∧
      WavDecoder.new sniffFailParse sniffFailStream =
        Except.error sniffFailStream :=
  ⟨rfl, (failed_sniff_nondestructive sniffFailParse sniffFailStream rfl).1⟩

/-! ### Claim C5 -/

/-- C5: for a captured `(encoding, bit depth)` outside the enumerated
set, a pull is a panic — not a value and not end-of-stream — and the
panic message names the encoding (its `Debug` rendering) and the bit
depth. -/
theorem unsupported_spec_panics (it : SamplesIterator)
    (h : ¬ supportedSpec it.reader.spec.sample_format
      it.reader.spec.bits_per_sample) :
    it.next = PullResult.panicked ("Unimplemented wav spec: " ++
      it.reader.spec.sample_format.debugStr ++ ", " ++
      toString it.reader.spec.bits_per_sample) := by
  unfold supportedSpec at h
  unfold SamplesIterator.next
  split_ifs with h1 h2 h3 h4 h5
  · exact absurd (Or.inl h1) h
  · exact absurd (Or.inr ⟨h2.1, Or.inl h2.2⟩) h
  · exact absurd (Or.inr ⟨h3.1, Or.inr (Or.inl h3.2)⟩) h
  · exact absurd (Or.inr ⟨h4.1, Or.inr (Or.inr (Or.inl h4.2))⟩) h
  · exact absurd (Or.inr ⟨h5.1, Or.inr (Or.inr (Or.inr h5.2))⟩) h
  · rfl

/-- An iterator whose captured spec is the unsupported `(Int, 12)`. -/
def unsupportedIt : SamplesIterator :=
  ⟨⟨⟨1, 44100, 12, SampleFormat.Int⟩, 0, []⟩, 0⟩

/-- C5 witness: the theorem applied to the concrete `(Int, 12)` spec. -/
theorem unsupported_spec_panics_witness :
    ¬ supportedSpec SampleFormat.Int 12 ∧
      unsupportedIt.next = PullResult.panicked "Unimplemented wav spec: Int, 12" := by
  refine ⟨by decide, ?_⟩
  have h := unsupported_spec_panics unsupportedIt (by decide)
  rw [h]
  rfl

/-! ### Claim C4 -/

lemma i8_to_f32_zero : i8_to_f32 0 = 0 := by
  have h : roundIntF32 0 = 0 := by decide
  unfold i8_to_f32 ratClamp
  rw [h]
  norm_num

lemma i16_to_f32_zero : i16_to_f32 0 = 0 := by
  have h : roundIntF32 0 = 0 := by decide
  unfold i16_to_f32 ratClamp
  rw [h]
  norm_num

lemma i24_to_f32_zero : i24_to_f32 0 = 0 := by
  have h : roundIntF32 0 = 0 := by decide
  unfold i24_to_f32 ratClamp
  rw [h]
  norm_num

lemma i32_to_f32_zero : i32_to_f32 0 = 0 := by
  have h : roundIntF32 0 = 0 := by decide
  unfold i32_to_f32 ratClamp
  rw [h]
  norm_num

lemma next_done_of_nil (it : SamplesIterator)
    (hsupp : supportedSpec it.reader.spec.sample_format
      it.reader.spec.bits_per_sample)
    (hs : it.reader.samples = []) : it.next = PullResult.done := by
  unfold supportedSpec at hsupp
  unfold SamplesIterator.next
  split_ifs with h1 h2 h3 h4 h5 <;> first
  | (rw [hs]; try rfl)
  | (exfalso
     rcases hsupp with h | ⟨hf, hb⟩
     · exact h1 h
     · rcases hb with hb | hb | hb | hb
       · exact h2 ⟨hf, hb⟩
       · exact h3 ⟨hf, hb⟩
       · exact h4 ⟨hf, hb⟩
       · exact h5 ⟨hf, hb⟩)

lemma next_cons_value (it : SamplesIterator) {w : Option ℚ}
    {rest : List (Option ℚ)}
    (hsupp : supportedSpec it.reader.spec.sample_format
      it.reader.spec.bits_per_sample)
    (hs : it.reader.samples = w :: rest) :
    ∃ v, it.next = PullResult.value v (it.advance rest) := by
  unfold supportedSpec at hsupp
  unfold SamplesIterator.next
  split_ifs with h1 h2 h3 h4 h5 <;> first
  | (rw [hs]; exact ⟨_, rfl⟩)
  | (exfalso
     rcases hsupp with h | ⟨hf, hb⟩
     · exact h1 h
     · rcases hb with hb | hb | hb | hb
       · exact h2 ⟨hf, hb⟩
       · exact h3 ⟨hf, hb⟩
       · exact h4 ⟨hf, hb⟩
       · exact h5 ⟨hf, hb⟩)

lemma next_cons_corrupt (it : SamplesIterator) {rest : List (Option ℚ)}
    (hsupp : supportedSpec it.reader.spec.sample_format
      it.reader.spec.bits_per_sample)
    (hs : it.reader.samples = Option.none :: rest) :
    it.next = PullResult.value 0 (it.advance rest) := by
  unfold supportedSpec at hsupp
  unfold SamplesIterator.next
  split_ifs with h1 h2 h3 h4 h5
  · simp [hs]
  · rw [hs]
    simp [Option.getD, i32_to_f32_zero]
  · rw [hs]
    simp [Option.getD, i16_to_f32_zero]
  · rw [hs]
    simp [Option.getD, i24_to_f32_zero]
  · rw [hs]
    simp [Option.getD, i8_to_f32_zero]
  · exfalso
    rcases hsupp with h | ⟨hf, hb⟩
    · exact h1 h
    · rcases hb with hb | hb | hb | hb
      · exact h2 ⟨hf, hb⟩
      · exact h3 ⟨hf, hb⟩
      · exact h4 ⟨hf, hb⟩
      · exact h5 ⟨hf, hb⟩

lemma collect_of_done {it : SamplesIterator} (h : it.next = PullResult.done) :
    it.collect = [] := by
  rw [SamplesIterator.collect]
  split
  · rename_i v it' heq
    rw [h] at heq
    cases heq
  · rfl
  · rfl

lemma collect_of_value {it it' : SamplesIterator} {v : ℚ}
    (h : it.next = PullResult.value v it') :
    it.collect = v :: it'.collect := by
  rw [SamplesIterator.collect]
  split
  · rename_i v2 it2 heq
    rw [h] at heq
    cases heq
    rfl
  · rename_i heq
    rw [h] at heq
    cases heq
  · rename_i m heq
    rw [h] at heq
    cases heq

lemma collect_length : ∀ (n : ℕ) (it : SamplesIterator),
    it.reader.samples.length = n →
    supportedSpec it.reader.spec.sample_format it.reader.spec.bits_per_sample →
    it.collect.length = n := by
  intro n
  induction n with
  | zero =>
    intro it hlen hsupp
    have hs : it.reader.samples = [] := List.length_eq_zero.mp hlen
    rw [collect_of_done (next_done_of_nil it hsupp hs)]
    rfl
  | succ n ih =>
    intro it hlen hsupp
    rcases hs : it.reader.samples with _ | ⟨w, rest⟩
    · rw [hs] at hlen; simp at hlen
    · obtain ⟨v, hv⟩ := next_cons_value it hsupp hs
      rw [collect_of_value hv]
      have hrest : (it.advance rest).reader.samples.length = n := by
        rw [hs] at hlen
        simpa [SamplesIterator.advance] using hlen
      have hsupp' : supportedSpec
          (it.advance rest).reader.spec.sample_format
          (it.advance rest).reader.spec.bits_per_sample := hsupp
      simpa using ih (it.advance rest) hrest hsupp'

/-- C4: for every supported `(encoding, bit depth)`, (i) a raw word that
fails to parse is pulled as the sample `0.0` with the iterator advancing
past it exactly as for a clean word, (ii) every successful pull — silence
substitution included — increments the sample cursor by exactly one, and
(iii) decoding runs to the true end of stream: the number of samples
produced equals the reader's word count, corrupt words included. -/
theorem corrupt_sample_resilience (it : SamplesIterator)
    (hsupp : supportedSpec it.reader.spec.sample_format
      it.reader.spec.bits_per_sample) :
    (∀ rest, it.reader.samples = Option.none :: rest →
      it.next = PullResult.value 0 (it.advance rest)) ∧
    (∀ v it', it.next = PullResult.value v it' →
      it'.samples_read = it.samples_read + 1) ∧
    it.collect.length = it.reader.samples.length := by
  refine ⟨?_, ?_, ?_⟩
  · intro rest hs
    exact next_cons_corrupt it hsupp hs
  · intro v it' h
    obtain ⟨w, rest, hs, hit⟩ := next_value_struct h
    rw [hit]
    rfl
  · exact collect_length _ it rfl hsupp

/-- C4 witness: the resilience theorem applied to a concrete `PCM16`
iterator positioned at a corrupt word. -/
theorem corrupt_sample_resilience_witness :
    supportedSpec SampleFormat.Int 16 ∧
      (⟨⟨⟨1, 8000, 16, SampleFormat.Int⟩, 3, [Option.none, Option.some 5]⟩, 1⟩ :
          SamplesIterator).next =
        PullResult.value 0
          ((⟨⟨⟨1, 8000, 16, SampleFormat.Int⟩, 3,
              [Option.none, Option.some 5]⟩, 1⟩ :
            SamplesIterator).advance [Option.some 5]) :=
  ⟨by decide,
    (corrupt_sample_resilience _ (by decide)).1 [Option.some 5] rfl⟩

/-! ### Claim C6 -/

/-- Decoders built by `WavDecoder::new` start with a zero sample cursor. -/
lemma new_samples_read_zero (parse : WavParser) (s : ByteStream)
    (d : WavDecoderM) (h : WavDecoder.new parse s = Except.ok d) :
    d.reader.samples_read = 0 := by
  simp only [WavDecoder.new] at h
  split_ifs at h
  rcases heq : (parse (is_wave parse s).2).1 with _ | reader0 <;> rw [heq] at h
  · simp at h
  · simp only [Except.ok.injEq] at h
    rw [← h]

/-- C6 (amended): `total_duration()` is computed from the decoder's
*remaining* length — `ExactSizeIterator::len` is the lower size-hint
bound, `reader.len() - samples_read` — so it equals
`(total_samples * 1000) / (channels * sample_rate)` only while no sample
has been pulled (which is the state `WavDecoder::new` returns); it is not
independent of how many samples have been pulled.  Stated for every
nonzero `channels * sample_rate`; a zero product panics (modelled as
`none`). -/
theorem total_duration_formula :
    (∀ d : WavDecoderM, d.channels * d.sample_rate ≠ 0 →
      d.total_duration =
        some ((d.reader.reader.len - d.reader.samples_read) * 1000 /
          (d.channels * d.sample_rate))) ∧
    (∀ (parse : WavParser) (s : ByteStream) (d : WavDecoderM),
      WavDecoder.new parse s = Except.ok d → d.reader.samples_read = 0) ∧
    (∀ d : WavDecoderM, d.channels = 2 → d.sample_rate = 44100 →
      d.reader.samples_read = 0 →
      d.total_duration = some (d.reader.reader.len * 1000 / (2 * 44100))) := by
  refine ⟨?_, new_samples_read_zero, ?_⟩
  · intro d h
    unfold WavDecoderM.total_duration WavDecoderM.len WavDecoderM.size_hint
      SamplesIterator.size_hint
    rw [if_neg h]
  · intro d hc hr h0
    unfold WavDecoderM.total_duration WavDecoderM.len WavDecoderM.size_hint
      SamplesIterator.size_hint
    rw [hc, hr, h0]
    norm_num

/-- A decoder over a 2-sample, 1-channel, 1 Hz `PCM16` stream, as
constructed (nothing pulled yet). -/
def durShrinkDec : WavDecoderM :=
  ⟨⟨⟨⟨1, 1, 16, SampleFormat.Int⟩, 2, [Option.some 0, Option.some 0]⟩, 0⟩,
    1, 1, "PCM16"⟩

/-- C6 counterexample: pulling one sample changes `total_duration()` from
2000 ms to 1000 ms although the stream's total sample count (2), the
channel count and the sample rate are unchanged — so the reported value
is not `(total_samples * 1000) / (channels * sample_rate)` independent of
the pulls already made. -/
theorem total_duration_cex :
    durShrinkDec.total_duration = some 2000 ∧
    (pullK 1 durShrinkDec).total_duration = some 1000 ∧
    (pullK 1 durShrinkDec).reader.reader.len = 2 ∧
    (pullK 1 durShrinkDec).channels = 1 ∧
    (pullK 1 durShrinkDec).sample_rate = 1 ∧
    ((2 * 1000 / (1 * 1) : ℕ) = 2000) ∧ (1000 : ℕ) ≠ 2000 := by
  obtain ⟨v, hv⟩ :=
    next_cons_value durShrinkDec.reader (by decide) rfl
  have hd : durShrinkDec.next = DecoderPull.value v
      { durShrinkDec with reader := durShrinkDec.reader.advance [Option.some 0] } := by
    unfold WavDecoderM.next
    rw [hv]
  have hp : pullK 1 durShrinkDec =
      { durShrinkDec with reader := durShrinkDec.reader.advance [Option.some 0] } := by
    simp only [pullK]
    rw [hd]
  rw [hp]
  refine ⟨rfl, rfl, rfl, rfl, rfl, rfl, by decide⟩

/-- C6 witness: the amended formula applied to the concrete decoder
`durShrinkDec`. -/
theorem total_duration_formula_witness :
    durShrinkDec.channels * durShrinkDec.sample_rate ≠ 0 ∧
      durShrinkDec.total_duration =
        some ((durShrinkDec.reader.reader.len - durShrinkDec.reader.samples_read) *
          1000 / (durShrinkDec.channels * durShrinkDec.sample_rate)) :=
  ⟨by decide, total_duration_formula.1 durShrinkDec (by decide)⟩

/-! ### Claim C7 -/

/-- A parsed reader whose header declares zero channels. -/
def zeroChanReader : WavReaderM := ⟨⟨0, 44100, 16, SampleFormat.Int⟩, 0, []⟩

/-- A parser that accepts the stream and yields the zero-channel spec
(the external container parser is free to do so; the spec requires this
layer to reject it). -/
def zeroChanParse : WavParser := fun _ => (some zeroChanReader, 44)

/-- The empty stream handle fed to the constructor. -/
def zeroChanStream : ByteStream := ⟨[], 0⟩

/-- The decoder the constructor actually builds from the zero-channel
spec. -/
def zeroChanDec : WavDecoderM := ⟨⟨zeroChanReader, 0⟩, 44100, 0, "PCM16"⟩

/-- C7 (code bug): `WavDecoder::new` performs no degenerate-spec check —
fed a parsed specification with zero channels it succeeds, returning a
decoder with `channels() = 0` whose `total_duration()` divides by zero
(a panic, modelled as `none`), contrary to the spec's requirement that
such a configuration be rejected at construction time. -/
theorem degenerate_spec_not_rejected :
    WavDecoder.new zeroChanParse zeroChanStream = Except.ok zeroChanDec ∧
    zeroChanDec.channels = 0 ∧
    zeroChanDec.total_duration = none := by
  refine ⟨rfl, rfl, rfl⟩

/-! ### Claim C8 -/

lemma pullK_hint : ∀ (k : ℕ) (d : WavDecoderM),
    supportedSpec d.reader.reader.spec.sample_format
      d.reader.reader.spec.bits_per_sample →
    d.reader.reader.len = d.reader.samples_read + d.reader.reader.samples.length →
    k ≤ d.reader.reader.samples.length →
    (pullK k d).size_hint =
      (d.reader.reader.samples.length - k,
        some (d.reader.reader.samples.length - k)) := by
  intro k
  induction k with
  | zero =>
    intro d hsupp hlen hk
    unfold pullK WavDecoderM.size_hint SamplesIterator.size_hint
    have h : d.reader.reader.len - d.reader.samples_read =
        d.reader.reader.samples.length := by omega
    rw [h]
    simp
  | succ k ih =>
    intro d hsupp hlen hk
    rcases hs : d.reader.reader.samples with _ | ⟨w, rest⟩
    · rw [hs] at hk
      simp at hk
    · obtain ⟨v, hv⟩ := next_cons_value d.reader hsupp hs
      have hd : d.next = DecoderPull.value v
          { d with reader := d.reader.advance rest } := by
        unfold WavDecoderM.next
        rw [hv]
      have hstep : pullK (k + 1) d =
          pullK k { d with reader := d.reader.advance rest } := by
        simp only [pullK]
        rw [hd]
      have hlen' : ({ d with reader := d.reader.advance rest } :
          WavDecoderM).reader.reader.len =
          ({ d with reader := d.reader.advance rest} :
            WavDecoderM).reader.samples_read +
          ({ d with reader := d.reader.advance rest} :
            WavDecoderM).reader.reader.samples.length := by
        show d.reader.reader.len = (d.reader.samples_read + 1) + rest.length
        rw [hs] at hlen
        simp only [List.length_cons] at hlen
        omega
      have hk' : k ≤ ({ d with reader := d.reader.advance rest} :
          WavDecoderM).reader.reader.samples.length := by
        show k ≤ rest.length
        rw [hs] at hk
        simp only [List.length_cons] at hk
        omega
      have happ := ih { d with reader := d.reader.advance rest } hsupp hlen' hk'
      rw [hstep, happ]
      simp only [List.length_cons, Prod.mk.injEq, Option.some.injEq,
        SamplesIterator.advance]
      omega

/-- C8: for a freshly constructed decoder over a stream whose header
count matches its `n` raw words (any supported encoding), after `k ≤ n`
pulls the remaining-length hint is exactly `(n - k, Some(n - k))`. -/
theorem size_hint_exact (d : WavDecoderM) (k : ℕ)
    (hsupp : supportedSpec d.reader.reader.spec.sample_format
      d.reader.reader.spec.bits_per_sample)
    (h0 : d.reader.samples_read = 0)
    (hlen : d.reader.reader.len = d.reader.reader.samples.length)
    (hk : k ≤ d.reader.reader.len) :
    (pullK k d).size_hint =
      (d.reader.reader.len - k, some (d.reader.reader.len - k)) := by
  have h := pullK_hint k d hsupp (by omega) (by omega)
  rw [h, hlen]

/-- A fresh 2-sample `PCM8` decoder. -/
def hintDec : WavDecoderM :=
  ⟨⟨⟨⟨1, 8000, 8, SampleFormat.Int⟩, 2, [Option.some 1, Option.some 2]⟩, 0⟩,
    8000, 1, "PCM8"⟩

/-- C8 witness: the exactness theorem applied to `hintDec` with `k = 1`. -/
theorem size_hint_exact_witness :
    supportedSpec SampleFormat.Int 8 ∧
      hintDec.reader.samples_read = 0 ∧
      hintDec.reader.reader.len = hintDec.reader.reader.samples.length ∧
      (1 : ℕ) ≤ hintDec.reader.reader.len ∧
      (pullK 1 hintDec).size_hint =
        (hintDec.reader.reader.len - 1, some (hintDec.reader.reader.len - 1)) :=
  ⟨by decide, rfl, rfl, by decide,
    size_hint_exact hintDec 1 (by decide) rfl rfl (by decide)⟩

/-! ### Claim C9 -/

lemma sourceCollect_of_nil {α : Type} (s : SourceM α) (hs : s.items = []) :
    s.collect = [] := by
  rw [SourceM.collect]
  split
  · rename_i v s' heq
    unfold SourceM.next at heq
    rw [hs] at heq
    cases heq
  · rfl

lemma sourceCollect_of_cons {α : Type} (s : SourceM α) {x : α}
    {rest : List α} (hs : s.items = x :: rest) :
    s.collect = x :: ({ s with items := rest } : SourceM α).collect := by
  rw [SourceM.collect]
  split
  · rename_i v s' heq
    unfold SourceM.next at heq
    rw [hs] at heq
    simp only [Option.some.injEq, Prod.mk.injEq] at heq
    rw [heq.1, heq.2]
  · rename_i heq
    unfold SourceM.next at heq
    rw [hs] at heq
    cases heq

lemma converterCollect_of_nil {α β : Type} (c : SamplesConverter α β)
    (hs : c.inner.items = []) : c.collect = [] := by
  rw [SamplesConverter.collect]
  split
  · rename_i v c' heq
    unfold SamplesConverter.next SourceM.next at heq
    rw [hs] at heq
    cases heq
  · rfl

lemma converterCollect_of_cons {α β : Type} (c : SamplesConverter α β) {x : α}
    {rest : List α} (hs : c.inner.items = x :: rest) :
    c.collect = c.conv x ::
      (⟨{ c.inner with items := rest }, c.conv⟩ : SamplesConverter α β).collect := by
  rw [SamplesConverter.collect]
  split
  · rename_i v c' heq
    unfold SamplesConverter.next SourceM.next at heq
    rw [hs] at heq
    simp only [Option.some.injEq, Prod.mk.injEq] at heq
    rw [heq.1, heq.2]
  · rename_i heq
    unfold SamplesConverter.next SourceM.next at heq
    rw [hs] at heq
    cases heq

lemma converterCollect_map : ∀ (n : ℕ) {α β : Type} (c : SamplesConverter α β),
    c.inner.items.length = n → c.collect = c.inner.collect.map c.conv := by
  intro n
  induction n with
  | zero =>
    intro α β c hlen
    have hs : c.inner.items = [] := List.length_eq_zero.mp hlen
    rw [converterCollect_of_nil c hs, sourceCollect_of_nil c.inner hs]
    rfl
  | succ n ih =>
    intro α β c hlen
    rcases hs : c.inner.items with _ | ⟨x, rest⟩
    · rw [hs] at hlen
      simp at hlen
    · rw [converterCollect_of_cons c hs, sourceCollect_of_cons c.inner hs]
      have hlen' : ((⟨{ c.inner with items := rest }, c.conv⟩ :
          SamplesConverter α β)).inner.items.length = n := by
        rw [hs] at hlen
        simpa using hlen
      rw [ih (⟨{ c.inner with items := rest }, c.conv⟩ : SamplesConverter α β) hlen']
      rfl

/-- C9: for every inner source and every state of it, the converter
returns the inner stream's values for `channels()`, `sample_rate()`,
`current_frame_len()`, `total_duration()`, `sample_format_str()` and
`size_hint()` unchanged, and its pull sequence is exactly the inner pull
sequence with each sample re-encoded by the injected conversion: neither
metadata nor the number of samples changes. -/
theorem converter_passthrough {α β : Type} (c : SamplesConverter α β) :
    c.channels = c.inner.channels ∧
    c.sample_rate = c.inner.sample_rate ∧
    c.current_frame_len = c.inner.current_frame_len ∧
    c.total_duration = c.inner.total_duration ∧
    c.sample_format_str = c.inner.sample_format_str ∧
    c.size_hint = c.inner.size_hint ∧
    c.collect = c.inner.collect.map c.conv ∧
    c.collect.length = c.inner.collect.length := by
  refine ⟨rfl, rfl, rfl, rfl, rfl, rfl, ?_, ?_⟩
  · exact converterCollect_map c.inner.items.length c rfl
  · rw [converterCollect_map c.inner.items.length c rfl]
    exact List.length_map _ _
